import Mathlib

/-!
Verification of the query/mutation engine of a schema-less REST façade over an
in-memory document store (an Express app serving CRUD plus filter / full-text
search / sort / pagination over `db[resource]`).

The JavaScript source is embedded shallowly:
* JS values are `JSVal` (numbers are modelled as integers; fractional, hex and
  exponent numeric strings therefore count as non-numeric in coercions);
* records are ordered association lists of fields, collections are lists of
  records, the store maps collection names to collections;
* object identity is not representable, so loose/strict equality between two
  objects — which in the source always compares separately allocated values
  and is therefore false — is modelled as false;
* the stable `Array.prototype.sort` is modelled by a stable insertion sort
  over the source's comparator;
* `randomUUID()` is modelled by a string parameter `gen` supplied to the
  create handler;
* the store object produced by `JSON.parse` inherits from `Object.prototype`,
  so `db[resource]` for an absent own key can still find an inherited truthy
  value (for names such as "constructor" or "toString"); `jsLookup` and the
  route wrappers model this, including the TypeError the handlers then throw.
-/

namespace MiniApi

/-- A JavaScript value as it occurs in the store and in parsed query/body data. -/
inductive JSVal where
  | str (s : String)
  | num (n : Int)
  | bool (b : Bool)
  | null
  | undefined
  | obj (fields : List (String × JSVal))
  | arr (elems : List JSVal)

/-- A record: an ordered association list of fields (a parsed JSON object). -/
abbrev Rec := List (String × JSVal)

/-- The in-memory store: collection name to ordered list of records. -/
abbrev Store := List (String × List Rec)

/-- Whitespace characters skipped by JS numeric string coercions. -/
def isWs (c : Char) : Bool :=
  c == ' ' || c == '\t' || c == '\n' || c == '\r'

/-- Value of a list of decimal digit characters. -/
def digitsVal (ds : List Char) : Nat :=
  ds.foldl (fun a c => a * 10 + (c.toNat - '0'.toNat)) 0

/-- JS `Number(string)`: trimmed empty string is 0; optional sign followed by
decimal digits; anything else is NaN (`none`). -/
def strToNumber (s : String) : Option Int :=
  let cs := ((s.data.dropWhile isWs).reverse.dropWhile isWs).reverse
  match cs with
  | [] => some 0
  | '-' :: ds => if !ds.isEmpty && ds.all (·.isDigit) then some (-(digitsVal ds : Int)) else none
  | '+' :: ds => if !ds.isEmpty && ds.all (·.isDigit) then some (digitsVal ds) else none
  | ds => if ds.all (·.isDigit) then some (digitsVal ds) else none

/-- JS `parseInt(s, 10)`: skip leading whitespace, optional sign, then the
longest decimal digit prefix; NaN (`none`) if there is no digit. -/
def jsParseInt (s : String) : Option Int :=
  let cs := s.data.dropWhile isWs
  let sr : Int × List Char :=
    match cs with
    | '-' :: t => (-1, t)
    | '+' :: t => (1, t)
    | t => (1, t)
  let ds := sr.2.takeWhile (·.isDigit)
  if ds.isEmpty then none else some (sr.1 * (digitsVal ds : Nat))

/-- JS `toLowerCase` (ASCII case mapping, as needed by the data model). -/
def strLower (s : String) : String :=
  ⟨s.data.map Char.toLower⟩

mutual

/-- JS `String(v)`. Arrays join their elements with commas, eliding null and
undefined elements; plain objects stringify to "[object Object]". -/
def jsToString : JSVal → String
  | .str s => s
  | .num n => toString n
  | .bool b => if b then "true" else "false"
  | .null => "null"
  | .undefined => "undefined"
  | .obj _ => "[object Object]"
  | .arr l => String.intercalate "," (jsToStringArr l)

/-- Stringification of array elements for JS array `toString`. -/
def jsToStringArr : List JSVal → List String
  | [] => []
  | .null :: vs => "" :: jsToStringArr vs
  | .undefined :: vs => "" :: jsToStringArr vs
  | v :: vs => jsToString v :: jsToStringArr vs

end

/-- JS `ToPrimitive` with default hint on objects/arrays (their `toString`). -/
def toPrim : JSVal → JSVal
  | .obj f => .str (jsToString (.obj f))
  | .arr l => .str (jsToString (.arr l))
  | v => v

/-- JS `ToNumber` on primitive values. -/
def primToNumber : JSVal → Option Int
  | .str s => strToNumber s
  | .num n => some n
  | .bool b => some (if b then 1 else 0)
  | .null => some 0
  | _ => none

/-- JS loose equality `==`.  Two objects are only loosely equal when they are
the same reference; the compared values here always come from separate
allocations (query vs. store), so object-object comparison is false. -/
def jsLooseEq (a b : JSVal) : Bool :=
  match a, b with
  | .null, .null => true
  | .null, .undefined => true
  | .undefined, .null => true
  | .undefined, .undefined => true
  | .null, _ => false
  | _, .null => false
  | .undefined, _ => false
  | _, .undefined => false
  | .obj _, .obj _ => false
  | .obj _, .arr _ => false
  | .arr _, .obj _ => false
  | .arr _, .arr _ => false
  | a, b =>
    match toPrim a, toPrim b with
    | .str s, .str t => s == t
    | x, y =>
      match primToNumber x, primToNumber y with
      | some n, some m => n == m
      | _, _ => false

/-- JS strict equality `===` on the values compared by the source (field
values vs. each other or vs. path strings); object identity is modelled as
false (separately allocated values). -/
def strictEq : JSVal → JSVal → Bool
  | .str s, .str t => s == t
  | .num n, .num m => n == m
  | .bool a, .bool b => a == b
  | .null, .null => true
  | .undefined, .undefined => true
  | _, _ => false

/-- JS `>` on primitive values: lexicographic when both are strings,
otherwise numeric with NaN incomparable. -/
def jsGtPrim (x y : JSVal) : Bool :=
  match x, y with
  | .str s, .str t => decide (t < s)
  | x', y' =>
    match primToNumber x', primToNumber y' with
    | some n, some m => decide (m < n)
    | _, _ => false

/-- JS `>` comparison: `ToPrimitive` both sides, then primitive comparison. -/
def jsGt (a b : JSVal) : Bool :=
  jsGtPrim (toPrim a) (toPrim b)

/-- Property read `item[k]`: first matching field, `undefined` when absent. -/
def getField (item : Rec) (k : String) : JSVal :=
  match item.find? (fun p => p.1 == k) with
  | some p => p.2
  | none => .undefined

/-- JS `k in o` restricted to own properties of a parsed object. -/
def hasKey (o : Rec) (k : String) : Bool :=
  o.any (fun p => p.1 == k)

/-- JS property assignment `o[k] = v` / object-literal override: updates the
key in place if present, else appends it. -/
def setKey (o : Rec) (k : String) (v : JSVal) : Rec :=
  if hasKey o k then o.map (fun p => if p.1 == k then (k, v) else p)
  else o ++ [(k, v)]

/-- JS object spread `{ ...a, ...b }`: fold `b`'s fields over `a`. -/
def mergeObjs (a b : Rec) : Rec :=
  b.foldl (fun acc p => setKey acc p.1 p.2) a

/-- The query keys that are not equality filters. -/
def reservedKeys : List String := ["_page", "_limit", "_sort", "_order", "q"]

/-- One filter key check of `matchesFn`: case-insensitive equality when both the
query value and the field value are strings, else loose equality. -/
def keyMatches (item : Rec) (k : String) (v : JSVal) : Bool :=
  match v, getField item k with
  | .str s, .str t => strLower t == strLower s
  | v', iv => jsLooseEq iv v'

/-- `matchesFn(item, query)` from the source: a record passes when every
non-reserved query key is matched. -/
def matchesFn (item : Rec) (query : List (String × JSVal)) : Bool :=
  query.all (fun kv => if reservedKeys.contains kv.1 then true else keyMatches item kv.1 kv.2)

/-- Escaping of string contents inside `JSON.stringify` output (the cases
relevant to the data model: quote, backslash, and common control characters). -/
def jsonEscape (s : String) : String :=
  s.data.foldr
    (fun c acc =>
      (if c == '"' then "\\\""
       else if c == '\\' then "\\\\"
       else if c == '\n' then "\\n"
       else if c == '\t' then "\\t"
       else if c == '\r' then "\\r"
       else String.singleton c) ++ acc)
    ""

mutual

/-- JS `JSON.stringify` of a value (array elements that are `undefined`
serialize as `null`; object members with `undefined` values are omitted). -/
def jsonStringify : JSVal → String
  | .str s => "\"" ++ jsonEscape s ++ "\""
  | .num n => toString n
  | .bool b => if b then "true" else "false"
  | .null => "null"
  | .undefined => "null"
  | .arr l => "[" ++ String.intercalate "," (jsonStringifyArr l) ++ "]"
  | .obj fs => "\x7b" ++ String.intercalate "," (jsonStringifyObj fs) ++ "\x7d"

/-- Serialization of the elements of an array. -/
def jsonStringifyArr : List JSVal → List String
  | [] => []
  | v :: vs => jsonStringify v :: jsonStringifyArr vs

/-- Serialization of the members of an object, skipping `undefined` values. -/
def jsonStringifyObj : List (String × JSVal) → List String
  | [] => []
  | (_, JSVal.undefined) :: fs => jsonStringifyObj fs
  | (k, v) :: fs => ("\"" ++ jsonEscape k ++ "\":" ++ jsonStringify v) :: jsonStringifyObj fs

end

/-- Substring test on character lists (JS `String.prototype.includes`). -/
def isSubList (needle : List Char) : List Char → Bool
  | [] => needle.isEmpty
  | c :: t => needle.isPrefixOf (c :: t) || isSubList needle t

/-- JS `hay.includes(needle)`. -/
def strContainsSub (hay needle : String) : Bool :=
  isSubList needle.data hay.data

/-- `fullText(item, needle)` from the source: serialize the record, lowercase
it, and test for the lowercased needle as a substring. -/
def fullText (item : Rec) (needle : String) : Bool :=
  strContainsSub (strLower (jsonStringify (.obj item))) (strLower needle)

/-- `toInt(v, def)` from the source, with `String(undefined) = "undefined"`
for an absent query parameter. -/
def optToStr : Option String → String
  | none => "undefined"
  | some s => s

/-- `toInt(v, def)`: `parseInt` with a default for NaN. -/
def toInt (v : Option String) (d : Int) : Int :=
  match jsParseInt (optToStr v) with
  | some n => n
  | none => d

/-- The effective `_order` string: `(order || "asc").toLowerCase()`. -/
def effOrder (order : Option String) : String :=
  strLower (match order with
            | none => "asc"
            | some s => if s = "" then "asc" else s)

/-- The source's sort comparator for a sort key and direction. -/
def sortCmp (k : String) (dir : Int) (a b : Rec) : Int :=
  let va := getField a k
  let vb := getField b k
  if strictEq va vb then 0 else if jsGt va vb then dir else -dir

/-- Stable insertion of an element into a list: `x` goes before the first
element `y` with `le x y` (so an earlier element precedes later ties). -/
def insertBy (le : α → α → Bool) (x : α) : List α → List α
  | [] => [x]
  | y :: ys => if le x y then x :: y :: ys else y :: insertBy le x ys

/-- Stable insertion sort, modelling the (specified stable) JS array sort. -/
def sortBy (le : α → α → Bool) : List α → List α
  | [] => []
  | x :: xs => insertBy le x (sortBy le xs)

/-- `sortItems(items, sortKey, order)` from the source: no-op on a falsy sort
key, otherwise a stable sort by the comparator with direction from `_order`. -/
def sortItems (items : List Rec) (sortKey order : Option String) : List Rec :=
  match sortKey with
  | none => items
  | some k =>
    if k = "" then items
    else
      let dir : Int := if effOrder order = "desc" then -1 else 1
      sortBy (fun a b => decide (sortCmp k dir a b ≤ 0)) items

/-- A distinguishable error outcome: unknown collection vs. unknown record. -/
inductive ApiError where
  | resourceNotFound
  | notFound
deriving DecidableEq

/-- The own-property part of `db[resource]`: the collection the store itself
holds under the name, if any.  This is only half of a JS property read — an
absent own key falls through to the object's prototype chain, which
`jsLookup` below models in full. -/
def storeLookup (db : Store) (res : String) : Option (List Rec) :=
  (db.find? (fun p => p.1 == res)).map (·.2)

/-- Replacing the collection stored under a name. -/
def storeUpdate (db : Store) (res : String) (data : List Rec) : Store :=
  db.map (fun p => if p.1 == res then (res, data) else p)

/-- The id lookup predicate: `String(x.id) === String(id)`. -/
def idPred (id : String) (x : Rec) : Bool :=
  jsToString (getField x "id") == id

/-- `findIndex` together with the record found at that index. -/
def findIdxRec (p : Rec → Bool) : List Rec → Option (Nat × Rec)
  | [] => none
  | x :: xs => if p x then some (0, x) else (findIdxRec p xs).map (fun r => (r.1 + 1, r.2))

/-- The parsed query of a list request: the five reserved parameters and the
remaining keys as equality filters. -/
structure ListQuery where
  page : Option String
  limit : Option String
  sort : Option String
  order : Option String
  search : Option String
  filters : List (String × JSVal)

/-- The equality-filter step of the list route. -/
def filterStep (data : List Rec) (filters : List (String × JSVal)) : List Rec :=
  data.filter (fun x => matchesFn x filters)

/-- The full-text step of the list route, applied only when `q` is truthy. -/
def searchStep (items : List Rec) (q : Option String) : List Rec :=
  match q with
  | some s => if s = "" then items else items.filter (fun x => fullText x s)
  | none => items

/-- `GET /api/:resource`: filter, search, sort, paginate; returns the page
window and the `X-Total-Count` value. -/
def listHandler (db : Store) (res : String) (qy : ListQuery) :
    Except ApiError (List Rec × Nat) :=
  match storeLookup db res with
  | none => .error .resourceNotFound
  | some data =>
    let items1 := filterStep data qy.filters
    let items2 := searchStep items1 qy.search
    let items3 := sortItems items2 qy.sort qy.order
    let page : Int := max 1 (toInt qy.page 1)
    let limit : Int := max 1 (min 1000 (toInt qy.limit (items3.length : Int)))
    let start : Nat := ((page - 1) * limit).toNat
    .ok ((items3.drop start).take limit.toNat, items3.length)

/-- `GET /api/:resource/:id`. -/
def getOneHandler (db : Store) (res id : String) : Except ApiError Rec :=
  match storeLookup db res with
  | none => .error .resourceNotFound
  | some data =>
    match data.find? (idPred id) with
    | none => .error .notFound
    | some r => .ok r

/-- The record a create request stores: the body itself when it carries an
`id` key, otherwise the body with the generated id appended. -/
def createdRec (body : Rec) (gen : String) : Rec :=
  if hasKey body "id" then body else body ++ [("id", JSVal.str gen)]

/-- `POST /api/:resource`: assign a generated id when the body has no `id`
key, append, and answer 201 with the stored record.  `gen` stands for the
`randomUUID()` call. -/
def postHandler (db : Store) (res : String) (body : Rec) (gen : String) :
    Store × Except ApiError (Rec × Nat) :=
  match storeLookup db res with
  | none => (db, .error .resourceNotFound)
  | some data =>
    (storeUpdate db res (data ++ [createdRec body gen]), .ok (createdRec body gen, 201))

/-- `PATCH /api/:resource/:id`: `{ ...data[idx], ...body, id: data[idx].id }`. -/
def patchHandler (db : Store) (res id : String) (body : Rec) :
    Store × Except ApiError Rec :=
  match storeLookup db res with
  | none => (db, .error .resourceNotFound)
  | some data =>
    match findIdxRec (idPred id) data with
    | none => (db, .error .notFound)
    | some ir =>
      let merged := setKey (mergeObjs ir.2 body) "id" (getField ir.2 "id")
      (storeUpdate db res (data.set ir.1 merged), .ok merged)

/-- `PUT /api/:resource/:id`: `{ ...body, id: data[idx].id }`. -/
def putHandler (db : Store) (res id : String) (body : Rec) :
    Store × Except ApiError Rec :=
  match storeLookup db res with
  | none => (db, .error .resourceNotFound)
  | some data =>
    match findIdxRec (idPred id) data with
    | none => (db, .error .notFound)
    | some ir =>
      let rep := setKey body "id" (getField ir.2 "id")
      (storeUpdate db res (data.set ir.1 rep), .ok rep)

/-- `DELETE /api/:resource/:id`: `splice(idx, 1)` and return the removed
record. -/
def deleteHandler (db : Store) (res id : String) :
    Store × Except ApiError Rec :=
  match storeLookup db res with
  | none => (db, .error .resourceNotFound)
  | some data =>
    match findIdxRec (idPred id) data with
    | none => (db, .error .notFound)
    | some ir =>
      (storeUpdate db res (data.take ir.1 ++ data.drop (ir.1 + 1)), .ok ir.2)

/-- `ensureArrays` from the snapshot loader: any top-level value that is not
an array is replaced by an empty array. -/
def ensureArrays (d : List (String × JSVal)) : List (String × JSVal) :=
  d.map (fun p =>
    match p.2 with
    | JSVal.arr l => (p.1, JSVal.arr l)
    | _ => (p.1, JSVal.arr []))

/-! ### Basic facts about the value comparisons -/

theorem jsGtPrim_asymm (x y : JSVal) (h : jsGtPrim x y = true) : jsGtPrim y x = false := by
  cases x <;> cases y <;>
    simp only [jsGtPrim, primToNumber] at h ⊢ <;>
    first
    | rfl
    | (simp only [decide_eq_true_eq] at h
       simp only [decide_eq_false_iff_not]
       exact lt_asymm h)
    | (rcases hs : strToNumber _ with _ | n <;> simp [hs] at h ⊢ <;> omega)
    | (rcases hs : strToNumber _ with _ | n <;>
       rcases ht : strToNumber _ with _ | m <;> simp [hs, ht] at h ⊢ <;> omega)
    | (simp at h ⊢ <;> omega)

theorem jsGt_asymm (a b : JSVal) (h : jsGt a b = true) : jsGt b a = false :=
  jsGtPrim_asymm _ _ h

theorem strictEq_true_eq {a b : JSVal} (h : strictEq a b = true) : a = b := by
  cases a <;> cases b <;> simp_all [strictEq]

theorem strictEq_symm (a b : JSVal) : strictEq a b = strictEq b a := by
  cases a <;> cases b <;> simp [strictEq, BEq.comm]

theorem jsGtPrim_irrefl (x : JSVal) : jsGtPrim x x = false := by
  cases x <;> simp only [jsGtPrim, primToNumber] <;>
    first
    | simp
    | (rcases hs : strToNumber _ with _ | n <;> simp [hs])

theorem jsGt_of_strictEq {a b : JSVal} (h : strictEq a b = true) : jsGt a b = false := by
  cases strictEq_true_eq h
  exact jsGtPrim_irrefl _

/-! ### The stable insertion sort -/

theorem perm_insertBy (le : α → α → Bool) (x : α) (l : List α) :
    List.Perm (insertBy le x l) (x :: l) := by
  induction l with
  | nil => simp [insertBy]
  | cons y ys ih =>
    unfold insertBy
    by_cases h : le x y = true
    · simp [h]
    · rw [if_neg h]
      exact (ih.cons y).trans (List.Perm.swap x y ys)

theorem perm_sortBy (le : α → α → Bool) (l : List α) :
    List.Perm (sortBy le l) l := by
  induction l with
  | nil => simp [sortBy]
  | cons x xs ih =>
    exact (perm_insertBy le x (sortBy le xs)).trans (ih.cons x)

theorem mem_sortBy (le : α → α → Bool) (l : List α) (a : α) :
    a ∈ sortBy le l ↔ a ∈ l :=
  (perm_sortBy le l).mem_iff

theorem filter_insertBy_neg (le : α → α → Bool) (p : α → Bool) (x : α)
    (hx : p x = false) (l : List α) :
    (insertBy le x l).filter p = l.filter p := by
  induction l with
  | nil => simp [insertBy, hx]
  | cons y ys ih =>
    unfold insertBy
    by_cases h : le x y = true
    · simp [h, List.filter_cons, hx]
    · rw [if_neg h]
      simp only [List.filter_cons]
      cases hy : p y <;> simp [ih]

theorem filter_insertBy_pos (le : α → α → Bool) (p : α → Bool) (x : α)
    (hx : p x = true) (l : List α)
    (hle : ∀ y ∈ l, p y = true → le x y = true) :
    (insertBy le x l).filter p = x :: l.filter p := by
  induction l with
  | nil => simp [insertBy, hx]
  | cons y ys ih =>
    unfold insertBy
    by_cases h : le x y = true
    · simp [h, List.filter_cons, hx]
    · rw [if_neg h]
      have hy : p y = false := by
        cases hpy : p y
        · rfl
        · exact absurd (hle y (by simp) hpy) (by simp [h])
      simp only [List.filter_cons, hy, cond_false]
      exact ih (fun z hz hpz => hle z (by simp [hz]) hpz)

theorem filter_sortBy (le : α → α → Bool) (p : α → Bool) (l : List α)
    (hp : ∀ a b, p a = true → p b = true → le a b = true) :
    (sortBy le l).filter p = l.filter p := by
  induction l with
  | nil => simp [sortBy]
  | cons x xs ih =>
    show (insertBy le x (sortBy le xs)).filter p = (x :: xs).filter p
    cases hx : p x
    · rw [filter_insertBy_neg le p x hx, ih, List.filter_cons, hx]
      simp
    · rw [filter_insertBy_pos le p x hx _ (fun y _ hpy => hp x y hx hpy), ih,
        List.filter_cons, hx]
      simp

theorem head?_insertBy (le : α → α → Bool) (x : α) (l : List α) (z : α)
    (h : (insertBy le x l).head? = some z) :
    z = x ∨ l.head? = some z := by
  cases l with
  | nil => simp [insertBy] at h; exact Or.inl h.symm
  | cons y ys =>
    unfold insertBy at h
    by_cases hxy : le x y = true
    · simp [hxy] at h; exact Or.inl h.symm
    · rw [if_neg hxy] at h
      simp at h
      exact Or.inr (by simp [h])

theorem chain'_insertBy (le : α → α → Bool) (x : α) (l : List α)
    (htot : ∀ y ∈ l, le x y = true ∨ le y x = true)
    (hl : l.Chain' (fun a b => le a b = true)) :
    (insertBy le x l).Chain' (fun a b => le a b = true) := by
  induction l with
  | nil => simp [insertBy]
  | cons y ys ih =>
    unfold insertBy
    by_cases hxy : le x y = true
    · rw [if_pos hxy]
      exact List.chain'_cons'.mpr ⟨fun b hb => by simp at hb; cases hb; exact hxy, hl⟩
    · rw [if_neg hxy]
      have hyx : le y x = true := (htot y (by simp)).resolve_left hxy
      have hys := (List.chain'_cons'.mp hl).2
      have hyhd := (List.chain'_cons'.mp hl).1
      refine List.chain'_cons'.mpr ⟨?_, ih (fun z hz => htot z (by simp [hz])) hys⟩
      intro b hb
      rcases head?_insertBy le x ys b (by simpa using hb) with rfl | hhd
      · exact hyx
      · exact hyhd b (by simpa using hhd)

theorem chain'_sortBy (le : α → α → Bool) (l : List α)
    (htot : ∀ a ∈ l, ∀ b ∈ l, le a b = true ∨ le b a = true) :
    (sortBy le l).Chain' (fun a b => le a b = true) := by
  induction l with
  | nil => simp [sortBy]
  | cons x xs ih =>
    refine chain'_insertBy le x (sortBy le xs) ?_ ?_
    · intro y hy
      exact htot x (by simp) y (by simp [(mem_sortBy le xs y).mp hy])
    · exact ih (fun a ha b hb => htot a (by simp [ha]) b (by simp [hb]))

theorem sortItems_perm (items : List Rec) (sk o : Option String) :
    List.Perm (sortItems items sk o) items := by
  unfold sortItems
  cases sk with
  | none => exact List.Perm.refl items
  | some k =>
    by_cases hk : k = ""
    · simp [hk]
    · simp only [if_neg hk]
      exact perm_sortBy _ items

theorem sortItems_length (items : List Rec) (sk o : Option String) :
    (sortItems items sk o).length = items.length :=
  (sortItems_perm items sk o).length_eq

/-! ### Facts about record field access and update -/

theorem hasKey_iff (o : Rec) (k : String) :
    hasKey o k = true ↔ k ∈ o.map Prod.fst := by
  simp [hasKey, List.any_eq_true, List.mem_map]

theorem getField_cons_self (k : String) (v : JSVal) (ps : Rec) :
    getField ((k, v) :: ps) k = v := by
  unfold getField
  rw [List.find?_cons_of_pos _ (by simp)]

theorem getField_cons_other (k k' : String) (v : JSVal) (ps : Rec) (h : k' ≠ k) :
    getField ((k, v) :: ps) k' = getField ps k' := by
  unfold getField
  rw [List.find?_cons_of_neg _ (by simpa using Ne.symm h)]

theorem getField_eq_undef_of_not_hasKey (o : Rec) (k : String)
    (h : hasKey o k = false) : getField o k = .undefined := by
  induction o with
  | nil => rfl
  | cons p ps ih =>
    simp only [hasKey, List.any_cons, Bool.or_eq_false_iff] at h
    obtain ⟨h1, h2⟩ := h
    obtain ⟨k1, v1⟩ := p
    rw [getField_cons_other _ _ _ _ (Ne.symm (beq_eq_false_iff_ne.mp h1))]
    exact ih h2

theorem getField_mapSet_self (o : Rec) (k : String) (v : JSVal)
    (h : hasKey o k = true) :
    getField (o.map (fun p => if p.1 == k then (k, v) else p)) k = v := by
  induction o with
  | nil => simp [hasKey] at h
  | cons p ps ih =>
    obtain ⟨k1, v1⟩ := p
    by_cases hk : k1 = k
    · simp only [List.map_cons, hk, beq_self_eq_true, if_pos]
      exact getField_cons_self k v _
    · simp only [List.map_cons]
      rw [if_neg (by simpa using hk)]
      rw [getField_cons_other _ _ _ _ (Ne.symm hk)]
      simp only [hasKey, List.any_cons, Bool.or_eq_true] at h
      rcases h with h | h
      · exact absurd (by simpa using h) hk
      · exact ih h

theorem getField_mapSet_other (o : Rec) (k k' : String) (v : JSVal) (h : k' ≠ k) :
    getField (o.map (fun p => if p.1 == k then (k, v) else p)) k' = getField o k' := by
  induction o with
  | nil => rfl
  | cons p ps ih =>
    obtain ⟨k1, v1⟩ := p
    by_cases hk : k1 = k
    · simp only [List.map_cons, hk, beq_self_eq_true, if_pos]
      rw [getField_cons_other _ _ _ _ h, getField_cons_other _ _ _ _ (hk ▸ h)]
      exact ih
    · simp only [List.map_cons]
      rw [if_neg (by simpa using hk)]
      by_cases hk' : k1 = k'
      · subst hk'
        rw [getField_cons_self, getField_cons_self]
      · rw [getField_cons_other _ _ _ _ (Ne.symm hk'), getField_cons_other _ _ _ _ (Ne.symm hk')]
        exact ih

theorem getField_appendOne_self (o : Rec) (k : String) (v : JSVal)
    (h : hasKey o k = false) :
    getField (o ++ [(k, v)]) k = v := by
  induction o with
  | nil => simp [getField]
  | cons p ps ih =>
    obtain ⟨k1, v1⟩ := p
    simp only [hasKey, List.any_cons, Bool.or_eq_false_iff] at h
    rw [List.cons_append,
      getField_cons_other _ _ _ _ (Ne.symm (beq_eq_false_iff_ne.mp h.1))]
    exact ih h.2

theorem getField_appendOne_other (o : Rec) (k k' : String) (v : JSVal) (h : k' ≠ k) :
    getField (o ++ [(k, v)]) k' = getField o k' := by
  induction o with
  | nil =>
    show getField [(k, v)] k' = getField [] k'
    rw [getField_cons_other _ _ _ _ h]
  | cons p ps ih =>
    obtain ⟨k1, v1⟩ := p
    by_cases hk' : k1 = k'
    · subst hk'
      rw [List.cons_append, getField_cons_self, getField_cons_self]
    · rw [List.cons_append, getField_cons_other _ _ _ _ (Ne.symm hk'),
        getField_cons_other _ _ _ _ (Ne.symm hk')]
      exact ih

theorem getField_setKey_self (o : Rec) (k : String) (v : JSVal) :
    getField (setKey o k v) k = v := by
  unfold setKey
  by_cases h : hasKey o k = true
  · rw [if_pos h]
    exact getField_mapSet_self o k v h
  · rw [if_neg h]
    exact getField_appendOne_self o k v (by simpa using h)

theorem getField_setKey_other (o : Rec) (k k' : String) (v : JSVal) (h : k' ≠ k) :
    getField (setKey o k v) k' = getField o k' := by
  unfold setKey
  by_cases hh : hasKey o k = true
  · rw [if_pos hh]
    exact getField_mapSet_other o k k' v h
  · rw [if_neg hh]
    exact getField_appendOne_other o k k' v h

theorem getField_mergeObjs_notMem (k : String) :
    ∀ (b o : Rec), hasKey b k = false → getField (mergeObjs o b) k = getField o k := by
  intro b
  induction b with
  | nil => intro o _; rfl
  | cons p rest ih =>
    intro o h
    obtain ⟨k1, v1⟩ := p
    simp only [hasKey, List.any_cons, Bool.or_eq_false_iff] at h
    show getField (mergeObjs (setKey o k1 v1) rest) k = getField o k
    rw [ih (setKey o k1 v1) h.2,
      getField_setKey_other _ _ _ _ (Ne.symm (beq_eq_false_iff_ne.mp h.1))]

theorem getField_mergeObjs_mem (k : String) :
    ∀ (b o : Rec), hasKey b k = true → (b.map Prod.fst).Nodup →
      getField (mergeObjs o b) k = getField b k := by
  intro b
  induction b with
  | nil => intro o h _; simp [hasKey] at h
  | cons p rest ih =>
    intro o h hnd
    obtain ⟨k1, v1⟩ := p
    simp only [List.map_cons, List.nodup_cons] at hnd
    show getField (mergeObjs (setKey o k1 v1) rest) k = getField ((k1, v1) :: rest) k
    by_cases hk : k1 = k
    · subst hk
      have hrest : hasKey rest k1 = false := by
        cases hr : hasKey rest k1
        · rfl
        · exact absurd ((hasKey_iff rest k1).mp hr) hnd.1
      rw [getField_mergeObjs_notMem k1 rest _ hrest, getField_setKey_self,
        getField_cons_self]
    · have hrest : hasKey rest k = true := by
        simp only [hasKey, List.any_cons, Bool.or_eq_true] at h
        rcases h with h | h
        · exact absurd (by simpa using h) hk
        · exact h
      rw [ih (setKey o k1 v1) hrest hnd.2, getField_cons_other _ _ _ _ (Ne.symm hk)]

/-! ### Facts about findIndex with its found record -/

theorem findIdxRec_some (p : Rec → Bool) :
    ∀ (l : List Rec) (i : Nat) (x : Rec), findIdxRec p l = some (i, x) →
      l[i]? = some x ∧ p x = true ∧
        ∀ j, j < i → ∀ y, l[j]? = some y → p y = false := by
  intro l
  induction l with
  | nil => intro i x h; simp [findIdxRec] at h
  | cons a l ih =>
    intro i x h
    unfold findIdxRec at h
    by_cases ha : p a = true
    · rw [if_pos ha] at h
      injection h with h2
      cases h2
      refine ⟨by simp, ha, ?_⟩
      intro j hj
      exact absurd hj (Nat.not_lt_zero j)
    · rw [if_neg ha] at h
      rw [Bool.not_eq_true] at ha
      cases hfl : findIdxRec p l with
      | none => rw [hfl] at h; simp at h
      | some r =>
        obtain ⟨i', x'⟩ := r
        rw [hfl] at h
        simp only [Option.map] at h
        injection h with h2
        cases h2
        obtain ⟨h1, h2, h3⟩ := ih _ _ hfl
        refine ⟨by simpa using h1, h2, ?_⟩
        intro j hj y hy
        cases j with
        | zero =>
          simp at hy
          cases hy
          exact ha
        | succ j' =>
          exact h3 j' (by omega) y (by simpa using hy)

theorem findIdxRec_some_lt (p : Rec → Bool) (l : List Rec) (i : Nat) (x : Rec)
    (h : findIdxRec p l = some (i, x)) : i < l.length := by
  have := (findIdxRec_some p l i x h).1
  exact (List.getElem?_eq_some.mp this).1

/-! ### Facts about filtering and search -/

theorem contains_eq_false_of_not_mem {l : List String} {a : String} (h : a ∉ l) :
    l.contains a = false := by
  cases hc : l.contains a
  · rfl
  · exact absurd (by simpa using hc) h

theorem isSubList_nil (hay : List Char) : isSubList [] hay = true := by
  cases hay <;> simp [isSubList, List.isPrefixOf]

theorem fullText_blank (x : Rec) : fullText x "" = true := by
  unfold fullText strContainsSub
  exact isSubList_nil _

theorem mem_searchStep (items : List Rec) (s : String) (x : Rec) :
    x ∈ searchStep items (some s) ↔ x ∈ items ∧ fullText x s = true := by
  simp only [searchStep]
  by_cases hs : s = ""
  · subst hs
    rw [if_pos rfl]
    simp [fullText_blank]
  · rw [if_neg hs]
    simp [List.mem_filter]

/-- C2: for every record and set of non-reserved filter keys, the filter keeps
the record iff every filter key matches (logical AND); a key with both sides
strings matches by case-insensitive exact equality, otherwise by loose
equality, where numeric strings equal numbers and null and undefined are
equivalent; a missing field is a non-match unless the query value is loosely
equal to undefined. -/
theorem claim_C2 :
    (∀ (item : Rec) (query : List (String × JSVal)),
        (∀ kv ∈ query, kv.1 ∉ reservedKeys) →
        (matchesFn item query = true ↔ ∀ kv ∈ query, keyMatches item kv.1 kv.2 = true)) ∧
    (∀ (item : Rec) (k s t : String), getField item k = .str t →
        keyMatches item k (.str s) = (strLower t == strLower s)) ∧
    (jsLooseEq (.str "42") (.num 42) = true ∧ jsLooseEq (.num 42) (.str "42") = true ∧
      jsLooseEq (.str "-7") (.num (-7)) = true ∧ jsLooseEq (.num 0) (.str "0") = true) ∧
    (jsLooseEq .null .undefined = true ∧ jsLooseEq .undefined .null = true) ∧
    (∀ (item : Rec) (k : String) (v : JSVal), hasKey item k = false →
        keyMatches item k v = jsLooseEq .undefined v ∧
          (jsLooseEq .undefined v = true ↔ v = .null ∨ v = .undefined)) := by
  refine ⟨?_, ?_, by decide, by decide, ?_⟩
  · intro item query h
    simp only [matchesFn, List.all_eq_true]
    constructor
    · intro hall kv hkv
      have := hall kv hkv
      have hnm := h kv hkv
      rwa [if_neg (fun hcontra => hnm (by simpa using hcontra))] at this
    · intro hall kv hkv
      have hnm := h kv hkv
      rw [if_neg (fun hcontra => hnm (by simpa using hcontra))]
      exact hall kv hkv
  · intro item k s t h
    unfold keyMatches
    rw [h]
  · intro item k v h
    have hg : getField item k = .undefined := getField_eq_undef_of_not_hasKey _ _ h
    constructor
    · cases v <;> (unfold keyMatches; rw [hg])
    · cases v <;> simp [jsLooseEq]

/-- Witness for C2 at concrete inputs: the AND characterization on a one-key
query, the case-insensitive string case, and the missing-field case. -/
theorem claim_C2_witness :
    (matchesFn [("name", JSVal.str "bob"), ("age", JSVal.num 3)]
        [("name", JSVal.str "Bob")] = true ↔
      ∀ kv ∈ [("name", JSVal.str "Bob")],
        keyMatches [("name", JSVal.str "bob"), ("age", JSVal.num 3)] kv.1 kv.2 = true) ∧
    keyMatches [("name", JSVal.str "bob")] "name" (.str "Bob") =
      (strLower "bob" == strLower "Bob") ∧
    (keyMatches [] "x" JSVal.null = jsLooseEq .undefined .null ∧
      (jsLooseEq .undefined .null = true ↔ JSVal.null = .null ∨ JSVal.null = .undefined)) :=
  ⟨claim_C2.1 _ _ (by decide), claim_C2.2.1 _ "name" "Bob" "bob" rfl,
    claim_C2.2.2.2.2 [] "x" JSVal.null rfl⟩

/-- C9: the full-text step keeps exactly the records whose lowercased
canonical serialization contains the lowercased needle as a substring, and it
is applied after equality filtering, only narrowing the filtered set. -/
theorem claim_C9 :
    (∀ (items : List Rec) (s : String) (x : Rec),
        x ∈ searchStep items (some s) ↔ x ∈ items ∧ fullText x s = true) ∧
    (∀ (item : Rec) (s : String),
        fullText item s =
          strContainsSub (strLower (jsonStringify (.obj item))) (strLower s)) ∧
    (∀ (data : List Rec) (filters : List (String × JSVal)) (s : String),
        (searchStep (filterStep data filters) (some s)).Sublist
          (filterStep data filters)) := by
  refine ⟨mem_searchStep, fun _ _ => rfl, ?_⟩
  intro data filters s
  simp only [searchStep]
  by_cases hs : s = ""
  · rw [if_pos hs]
  · rw [if_neg hs]
    exact List.filter_sublist _

/-! ### The list pipeline, named stage by stage -/

/-- The sequence after equality filtering and full-text search (the total the
route reports is taken before sorting changes nothing about its length). -/
def afterFS (data : List Rec) (qy : ListQuery) : List Rec :=
  searchStep (filterStep data qy.filters) qy.search

/-- The sequence after filter, search and sort. -/
def sortedOf (data : List Rec) (qy : ListQuery) : List Rec :=
  sortItems (afterFS data qy) qy.sort qy.order

/-- The parsed and clamped page number. -/
def pageOf (qy : ListQuery) : Int :=
  max 1 (toInt qy.page 1)

/-- The parsed and clamped page size. -/
def limitOf (data : List Rec) (qy : ListQuery) : Int :=
  max 1 (min 1000 (toInt qy.limit ((sortedOf data qy).length : Int)))

/-- The slice window the route answers with. -/
def windowOf (data : List Rec) (qy : ListQuery) : List Rec :=
  ((sortedOf data qy).drop ((pageOf qy - 1) * limitOf data qy).toNat).take
    (limitOf data qy).toNat

theorem listHandler_eq (db : Store) (res : String) (qy : ListQuery)
    (data : List Rec) (h : storeLookup db res = some data) :
    listHandler db res qy =
      Except.ok (windowOf data qy, (sortedOf data qy).length) := by
  simp only [listHandler, h]
  rfl

/-- The list query with every parameter absent. -/
def noQuery : ListQuery :=
  ⟨none, none, none, none, none, []⟩

theorem filterStep_nil (data : List Rec) : filterStep data [] = data := by
  unfold filterStep
  rw [show (fun x : Rec => matchesFn x []) = (fun _ => true) from rfl, List.filter_true]

theorem toInt_none (d : Int) : toInt none d = d := by
  have h : jsParseInt "undefined" = none := by decide
  unfold toInt optToStr
  rw [h]

theorem listHandler_noQuery (db : Store) (res : String) (data : List Rec)
    (h : storeLookup db res = some data) :
    listHandler db res noQuery =
      Except.ok (data.take (max 1 (min 1000 data.length)), data.length) := by
  rw [listHandler_eq db res noQuery data h]
  have hfs : afterFS data noQuery = data := by
    unfold afterFS noQuery
    rw [filterStep_nil]
    rfl
  have hsort : sortedOf data noQuery = data := by
    unfold sortedOf
    rw [hfs]
    rfl
  have hpage : pageOf noQuery = 1 := by
    unfold pageOf noQuery
    rw [toInt_none]
    norm_num
  have hlimit : limitOf data noQuery = max 1 (min 1000 (data.length : Int)) := by
    unfold limitOf noQuery
    rw [toInt_none]
    rw [show sortedOf data ⟨none, none, none, none, none, []⟩ = data from hsort]
  have harith : (max 1 (min 1000 (data.length : Int))).toNat =
      max 1 (min 1000 data.length) := by omega
  unfold windowOf
  rw [hsort, hpage, hlimit, harith]
  norm_num

theorem storeLookup_singleton (res : String) (data : List Rec) :
    storeLookup [(res, data)] res = some data := by
  unfold storeLookup
  rw [List.find?_cons_of_pos _ (by simp)]
  rfl

/-- A collection of 1001 records, longer than the hard page-size cap. -/
def bigBooks : List Rec :=
  List.replicate 1001 [("id", JSVal.num 0)]

/-- C1 is false as stated: on a collection of 1001 records, listing with no
query parameters returns only the first 1000 records, not the entire
collection (the default limit is the collection length, which the route then
clamps to 1000); the reported total is still 1001. -/
theorem claim_C1_counterexample :
    listHandler [("books", bigBooks)] "books" noQuery =
      Except.ok (bigBooks.take 1000, 1001) ∧
    bigBooks.take 1000 ≠ bigBooks := by
  have hlen : bigBooks.length = 1001 := by
    unfold bigBooks
    rw [List.length_replicate]
  have h := listHandler_noQuery [("books", bigBooks)] "books" bigBooks
    (storeLookup_singleton _ _)
  rw [hlen] at h
  constructor
  · rw [h]
    norm_num
  · intro he
    have hl := congrArg List.length he
    rw [List.length_take, hlen] at hl
    norm_num at hl

/-- C1 (amended): for every collection present in the store, listing with no
query parameters returns the collection in original insertion order truncated
to its first max 1 (min 1000 length) records — the entire collection whenever
its length is at most 1000 — and the reported total count equals the
collection's length. -/
theorem claim_C1 (db : Store) (res : String) (data : List Rec)
    (h : storeLookup db res = some data) :
    listHandler db res noQuery =
      Except.ok (data.take (max 1 (min 1000 data.length)), data.length) ∧
    (data.length ≤ 1000 → data.take (max 1 (min 1000 data.length)) = data) := by
  refine ⟨listHandler_noQuery db res data h, ?_⟩
  intro hle
  have hmm : max 1 (min 1000 data.length) = max 1 data.length := by omega
  rw [hmm]
  rcases Nat.eq_zero_or_pos data.length with h0 | hpos
  · rw [List.length_eq_zero.mp h0]
    rfl
  · rw [max_eq_right hpos]
    exact List.take_length data

/-- A small concrete store used by several witnesses. -/
def wBooks : List Rec :=
  [[("id", JSVal.str "1"), ("title", JSVal.str "Dune"), ("year", JSVal.num 1965)],
   [("id", JSVal.str "2"), ("title", JSVal.str "Foundation"), ("year", JSVal.num 1951)]]

/-- Witness for the amended C1 on a two-record collection. -/
theorem claim_C1_witness :
    storeLookup [("books", wBooks)] "books" = some wBooks ∧
    (listHandler [("books", wBooks)] "books" noQuery =
        Except.ok (wBooks.take (max 1 (min 1000 wBooks.length)), wBooks.length) ∧
      (wBooks.length ≤ 1000 →
        wBooks.take (max 1 (min 1000 wBooks.length)) = wBooks)) :=
  ⟨rfl, claim_C1 _ _ _ rfl⟩

/-- What C4 asserts about pagination for one request. -/
def C4Concl (db : Store) (res : String) (qy : ListQuery) (data : List Rec) : Prop :=
  listHandler db res qy = Except.ok (windowOf data qy, (afterFS data qy).length) ∧
  1 ≤ pageOf qy ∧ 1 ≤ limitOf data qy ∧ limitOf data qy ≤ 1000 ∧
  (sortedOf data qy).length = (afterFS data qy).length ∧
  (jsParseInt (optToStr qy.page) = none → pageOf qy = 1) ∧
  (jsParseInt (optToStr qy.limit) = none →
    limitOf data qy = max 1 (min 1000 ((afterFS data qy).length : Int))) ∧
  (((afterFS data qy).length : Int) ≤ (pageOf qy - 1) * limitOf data qy →
    windowOf data qy = [])

/-- C4: pagination parses page and limit as integers with defaults page 1 and
limit the full remaining length, clamps page to at least 1 and limit to
[1,1000], answers exactly the window [(page-1)*limit, (page-1)*limit+limit)
of the post-filter/search/sort sequence with out-of-range windows empty, and
reports the total count after filter and search but before pagination. -/
theorem claim_C4 (db : Store) (res : String) (qy : ListQuery) (data : List Rec)
    (h : storeLookup db res = some data) : C4Concl db res qy data := by
  have hlen : (sortedOf data qy).length = (afterFS data qy).length :=
    sortItems_length _ _ _
  refine ⟨?_, le_max_left _ _, le_max_left _ _, ?_, hlen, ?_, ?_, ?_⟩
  · rw [listHandler_eq db res qy data h, hlen]
  · unfold limitOf
    omega
  · intro hp
    unfold pageOf toInt
    rw [hp]
    norm_num
  · intro hp
    unfold limitOf toInt
    rw [hp, hlen]
  · intro hle
    unfold windowOf
    set m := (pageOf qy - 1) * limitOf data qy with hm
    have : (sortedOf data qy).length ≤ m.toNat := by omega
    rw [List.drop_eq_nil_of_le this]
    exact List.take_nil

/-- The query `_page=2&_limit=1` used by the C4 witness. -/
def wqy : ListQuery :=
  ⟨some "2", some "1", none, none, none, []⟩

/-- Witness for C4 on a concrete two-record collection with page 2, limit 1. -/
theorem claim_C4_witness :
    storeLookup [("books", wBooks)] "books" = some wBooks ∧
    C4Concl [("books", wBooks)] "books" wqy wBooks :=
  ⟨rfl, claim_C4 _ _ _ _ rfl⟩

/-! ### The sort claim -/

theorem sortCmp_total (k : String) (dir : Int) (hdir : dir = 1 ∨ dir = -1)
    (a b : Rec)
    (h : strictEq (getField a k) (getField b k) = true ∨
      jsGt (getField a k) (getField b k) = true ∨
      jsGt (getField b k) (getField a k) = true) :
    decide (sortCmp k dir a b ≤ 0) = true ∨ decide (sortCmp k dir b a ≤ 0) = true := by
  simp only [sortCmp, decide_eq_true_eq]
  rcases h with heq | hgt | hgt
  · left
    rw [if_pos heq]
  · by_cases heq : strictEq (getField a k) (getField b k) = true
    · left
      rw [if_pos heq]
    · rcases hdir with rfl | rfl
      · right
        rw [if_neg (by rw [strictEq_symm]; exact heq),
          if_neg (by simp [jsGt_asymm _ _ hgt])]
        norm_num
      · left
        rw [if_neg heq, if_pos hgt]
        norm_num
  · by_cases heq : strictEq (getField a k) (getField b k) = true
    · left
      rw [if_pos heq]
    · rcases hdir with rfl | rfl
      · left
        rw [if_neg heq, if_neg (by simp [jsGt_asymm _ _ hgt])]
        norm_num
      · right
        rw [if_neg (by rw [strictEq_symm]; exact heq), if_pos hgt]
        norm_num

/-- What C3 asserts of one sort invocation.  The adjacent-order conjuncts
hold for collections whose key values are pairwise comparable; on incomparable
values the source's comparator is inconsistent and the JS engine's resulting
order is implementation-defined. -/
def C3Concl (items : List Rec) (k : String) (order : Option String) : Prop :=
  List.Perm (sortItems items (some k) order) items ∧
  (∀ v : JSVal,
    (sortItems items (some k) order).filter (fun r => strictEq (getField r k) v) =
      items.filter (fun r => strictEq (getField r k) v)) ∧
  ((∀ a ∈ items, ∀ b ∈ items,
      strictEq (getField a k) (getField b k) = true ∨
      jsGt (getField a k) (getField b k) = true ∨
      jsGt (getField b k) (getField a k) = true) →
    (effOrder order ≠ "desc" →
      (sortItems items (some k) order).Chain'
        (fun a b => jsGt (getField a k) (getField b k) = false)) ∧
    (effOrder order = "desc" →
      (sortItems items (some k) order).Chain'
        (fun a b => jsGt (getField b k) (getField a k) = false)))

/-- C3: for a given (non-empty) sort key, the sort step permutes the records
and is stable — records with strictly-equal key values keep their relative
pre-sort order, in both the ascending and the descending direction — and it
orders adjacent records ascending by default and descending exactly when the
order parameter equals "desc" case-insensitively (any other value behaves as
ascending). -/
theorem claim_C3 (items : List Rec) (k : String) (order : Option String)
    (hk : k ≠ "") : C3Concl items k order := by
  have hs : ∀ d : Int, (if effOrder order = "desc" then (-1 : Int) else 1) = d →
      sortItems items (some k) order =
        sortBy (fun a b => decide (sortCmp k d a b ≤ 0)) items := by
    intro d hd
    simp only [sortItems]
    rw [if_neg hk, hd]
  have hstab : ∀ (d : Int) (v : JSVal),
      (sortBy (fun a b => decide (sortCmp k d a b ≤ 0)) items).filter
          (fun r => strictEq (getField r k) v) =
        items.filter (fun r => strictEq (getField r k) v) := by
    intro d v
    refine filter_sortBy _ _ _ ?_
    intro a b pa pb
    have e1 := strictEq_true_eq pa
    have e2 := strictEq_true_eq pb
    have hvv : strictEq (getField a k) (getField b k) = true := by
      rw [e1, e2]
      rw [e1] at pa
      exact pa
    simp only [sortCmp, decide_eq_true_eq]
    rw [if_pos hvv]
  refine ⟨?_, ?_, ?_⟩
  · rw [hs _ rfl]
    exact perm_sortBy _ _
  · intro v
    rw [hs _ rfl]
    exact hstab _ v
  · intro hcomp
    constructor
    · intro hne
      rw [hs 1 (if_neg hne)]
      have hchain := chain'_sortBy (fun a b => decide (sortCmp k 1 a b ≤ 0)) items
        (fun a ha b hb => sortCmp_total k 1 (Or.inl rfl) a b (hcomp a ha b hb))
      refine hchain.imp ?_
      intro a b hab
      simp only [decide_eq_true_eq] at hab
      by_cases heq : strictEq (getField a k) (getField b k) = true
      · exact jsGt_of_strictEq heq
      · cases hgt : jsGt (getField a k) (getField b k)
        · rfl
        · simp only [sortCmp] at hab
          rw [if_neg heq, if_pos hgt] at hab
          norm_num at hab
    · intro hde
      rw [hs (-1) (if_pos hde)]
      have hchain := chain'_sortBy (fun a b => decide (sortCmp k (-1) a b ≤ 0)) items
        (fun a ha b hb => sortCmp_total k (-1) (Or.inr rfl) a b (hcomp a ha b hb))
      refine hchain.imp ?_
      intro a b hab
      simp only [decide_eq_true_eq] at hab
      by_cases heq : strictEq (getField a k) (getField b k) = true
      · exact jsGt_of_strictEq (strictEq_symm _ _ ▸ heq)
      · cases hgt : jsGt (getField a k) (getField b k)
        · simp only [sortCmp] at hab
          rw [if_neg heq, if_neg (by simp [hgt])] at hab
          norm_num at hab
        · exact jsGt_asymm _ _ hgt

/-- Witness for C3: sorting the two-record book collection by year
descending. -/
theorem claim_C3_witness :
    ("year" ≠ "") ∧ C3Concl wBooks "year" (some "desc") :=
  ⟨by decide, claim_C3 wBooks "year" (some "desc") (by decide)⟩

/-! ### The mutation claims -/

/-- What C5 asserts of one merge (PATCH) and one replace (PUT) request. -/
def C5Concl (db : Store) (res id : String) (body : Rec) (data : List Rec)
    (i : Nat) (orig : Rec) : Prop :=
  patchHandler db res id body =
    (storeUpdate db res
      (data.set i (setKey (mergeObjs orig body) "id" (getField orig "id"))),
     Except.ok (setKey (mergeObjs orig body) "id" (getField orig "id"))) ∧
  putHandler db res id body =
    (storeUpdate db res (data.set i (setKey body "id" (getField orig "id"))),
     Except.ok (setKey body "id" (getField orig "id"))) ∧
  getField (setKey (mergeObjs orig body) "id" (getField orig "id")) "id" =
    getField orig "id" ∧
  getField (setKey body "id" (getField orig "id")) "id" = getField orig "id" ∧
  (∀ k, k ≠ "id" → hasKey body k = true →
    getField (setKey (mergeObjs orig body) "id" (getField orig "id")) k =
      getField body k) ∧
  (∀ k, k ≠ "id" → hasKey body k = false →
    getField (setKey (mergeObjs orig body) "id" (getField orig "id")) k =
      getField orig k)

/-- C5: on a record found by id, merge stores the shallow merge of the body
over the existing record — supplied fields overwrite, unspecified fields
persist — and both replace and merge force the stored record's id back to the
original id whatever the body supplies. -/
theorem claim_C5 (db : Store) (res id : String) (body : Rec) (data : List Rec)
    (i : Nat) (orig : Rec) (h : storeLookup db res = some data)
    (hfind : findIdxRec (idPred id) data = some (i, orig))
    (hnd : (body.map Prod.fst).Nodup) :
    C5Concl db res id body data i orig := by
  refine ⟨?_, ?_, getField_setKey_self _ _ _, getField_setKey_self _ _ _, ?_, ?_⟩
  · simp only [patchHandler, h, hfind]
  · simp only [putHandler, h, hfind]
  · intro k hk hmem
    rw [getField_setKey_other _ _ _ _ hk]
    exact getField_mergeObjs_mem k body orig hmem hnd
  · intro k hk hmem
    rw [getField_setKey_other _ _ _ _ hk]
    exact getField_mergeObjs_notMem k body orig hmem

/-- Witness for C5: PATCH and PUT of record "1" of the book collection with a
body that also tries to change the id. -/
theorem claim_C5_witness :
    storeLookup [("books", wBooks)] "books" = some wBooks ∧
    findIdxRec (idPred "1") wBooks = some (0, wBooks.head!) ∧
    (([("year", JSVal.num 1966), ("id", JSVal.str "9")].map Prod.fst).Nodup) ∧
    C5Concl [("books", wBooks)] "books" "1"
      [("year", JSVal.num 1966), ("id", JSVal.str "9")] wBooks 0 wBooks.head! :=
  ⟨rfl, rfl, by decide,
    claim_C5 _ _ _ _ _ _ _ rfl rfl (by decide)⟩

/-- What C6 asserts of one create request. -/
def C6Concl (db : Store) (res : String) (body : Rec) (gen : String)
    (data : List Rec) : Prop :=
  postHandler db res body gen =
    (storeUpdate db res (data ++ [createdRec body gen]),
     Except.ok (createdRec body gen, 201)) ∧
  (data ++ [createdRec body gen]).length = data.length + 1 ∧
  (hasKey body "id" = true → createdRec body gen = body) ∧
  (hasKey body "id" = false →
    getField (createdRec body gen) "id" = JSVal.str gen ∧
    (gen ≠ "" → getField (createdRec body gen) "id" ≠ JSVal.str "") ∧
    ((∀ r ∈ data, getField r "id" ≠ JSVal.str gen) →
      ∀ r ∈ data, getField r "id" ≠ getField (createdRec body gen) "id"))

/-- C6: create appends the record to the end of the collection (length grows
by one) and answers 201 with the stored record; a body without an id key gets
the freshly generated identifier — non-empty and unused when the generator
satisfies its contract — while a body with an id keeps it verbatim. -/
theorem claim_C6 (db : Store) (res : String) (body : Rec) (gen : String)
    (data : List Rec) (h : storeLookup db res = some data) :
    C6Concl db res body gen data := by
  refine ⟨?_, by simp, ?_, ?_⟩
  · simp only [postHandler, h]
  · intro ht
    unfold createdRec
    rw [if_pos ht]
  · intro hf
    have hg : getField (createdRec body gen) "id" = JSVal.str gen := by
      unfold createdRec
      rw [if_neg (by simp [hf])]
      exact getField_appendOne_self body "id" (JSVal.str gen) hf
    refine ⟨hg, ?_, ?_⟩
    · intro hne hcontra
      rw [hg] at hcontra
      exact hne (JSVal.str.inj hcontra)
    · intro hall r hr
      rw [hg]
      exact hall r hr

/-- Witness for C6: creating a record without an id in the book collection. -/
theorem claim_C6_witness :
    storeLookup [("books", wBooks)] "books" = some wBooks ∧
    C6Concl [("books", wBooks)] "books" [("title", JSVal.str "New")] "uuid-77" wBooks :=
  ⟨rfl, claim_C6 _ _ _ _ _ rfl⟩

/-- C10: a create request whose body contains the id key — whatever the value
under it, null included — suppresses id generation entirely: the record is
stored and returned verbatim, with its id equal to the supplied value. -/
theorem claim_C10 (db : Store) (res gen : String) (data : List Rec)
    (v : JSVal) (rest : Rec) (h : storeLookup db res = some data) :
    hasKey (("id", v) :: rest) "id" = true ∧
    postHandler db res (("id", v) :: rest) gen =
      (storeUpdate db res (data ++ [("id", v) :: rest]),
       Except.ok ((("id", v) :: rest), 201)) ∧
    getField (("id", v) :: rest) "id" = v := by
  have hid : hasKey (("id", v) :: rest) "id" = true := by simp [hasKey]
  refine ⟨hid, ?_, getField_cons_self _ _ _⟩
  have hc : createdRec (("id", v) :: rest) gen = ("id", v) :: rest := by
    unfold createdRec
    rw [if_pos hid]
  simp only [postHandler, h, hc]

/-- Witness for C10: POST of a body with id null stores id null verbatim. -/
theorem claim_C10_witness :
    storeLookup [("books", wBooks)] "books" = some wBooks ∧
    (hasKey (("id", JSVal.null) :: [("t", JSVal.str "x")]) "id" = true ∧
     postHandler [("books", wBooks)] "books"
        (("id", JSVal.null) :: [("t", JSVal.str "x")]) "u" =
      (storeUpdate [("books", wBooks)] "books"
        (wBooks ++ [("id", JSVal.null) :: [("t", JSVal.str "x")]]),
       Except.ok ((("id", JSVal.null) :: [("t", JSVal.str "x")]), 201)) ∧
     getField (("id", JSVal.null) :: [("t", JSVal.str "x")]) "id" = JSVal.null) :=
  ⟨rfl, claim_C10 _ _ _ _ JSVal.null _ rfl⟩

/-- What C8 asserts of one delete request. -/
def C8Concl (db : Store) (res id : String) (data : List Rec) : Prop :=
  (∀ i orig, findIdxRec (idPred id) data = some (i, orig) →
    deleteHandler db res id =
      (storeUpdate db res (data.take i ++ data.drop (i + 1)), Except.ok orig) ∧
    data[i]? = some orig ∧ idPred id orig = true ∧
    (∀ j, j < i → ∀ y, data[j]? = some y → idPred id y = false) ∧
    (data.take i ++ data.drop (i + 1)).length + 1 = data.length ∧
    (∀ j, j < i → (data.take i ++ data.drop (i + 1))[j]? = data[j]?) ∧
    (∀ j, i ≤ j → (data.take i ++ data.drop (i + 1))[j]? = data[j + 1]?)) ∧
  (findIdxRec (idPred id) data = none →
    deleteHandler db res id = (db, Except.error ApiError.notFound))

/-- C8: delete removes exactly the first record whose id stringifies equal to
the target id, returns it unchanged, keeps every other record in order, and
answers a not-found signal leaving the collection untouched when no record
matches. -/
theorem claim_C8 (db : Store) (res id : String) (data : List Rec)
    (h : storeLookup db res = some data) : C8Concl db res id data := by
  constructor
  · intro i orig hf
    obtain ⟨h1, h2, h3⟩ := findIdxRec_some _ _ _ _ hf
    have hlt : i < data.length := findIdxRec_some_lt _ _ _ _ hf
    refine ⟨?_, h1, h2, h3, ?_, ?_, ?_⟩
    · simp only [deleteHandler, h, hf]
    · rw [List.length_append, List.length_take, List.length_drop]
      omega
    · intro j hj
      rw [List.getElem?_append_left (by rw [List.length_take]; omega)]
      exact List.getElem?_take_of_lt hj
    · intro j hj
      rw [List.getElem?_append_right (by rw [List.length_take]; omega)]
      rw [List.length_take, List.getElem?_drop]
      congr 1
      omega
  · intro hf
    simp only [deleteHandler, h, hf]

/-- Witness for C8: deleting record "2" from the book collection. -/
theorem claim_C8_witness :
    storeLookup [("books", wBooks)] "books" = some wBooks ∧
    C8Concl [("books", wBooks)] "books" "2" wBooks :=
  ⟨rfl, claim_C8 _ _ _ _ rfl⟩

/-! ### The unknown-resource claim, with the prototype chain of the store -/

/-- The own-property names of `Object.prototype`, inherited by every object
`JSON.parse` creates.  Reading one of them through `db[resource]` when the
store has no own key of that name yields an inherited value — a function, or
the prototype object itself for `__proto__` — which is truthy and not an
array. -/
def protoProps : List String :=
  ["constructor", "hasOwnProperty", "isPrototypeOf", "propertyIsEnumerable",
   "toLocaleString", "toString", "valueOf", "__proto__", "__defineGetter__",
   "__defineSetter__", "__lookupGetter__", "__lookupSetter__"]

/-- The three ways the property read `db[resource]` can turn out. -/
inductive LookupResult where
  | own (data : List Rec)
  | inherited
  | absent

/-- Full JS property access `db[resource]`: an own key wins; otherwise a
property inherited from `Object.prototype` is found; otherwise the read is
`undefined`. -/
def jsLookup (db : Store) (res : String) : LookupResult :=
  match storeLookup db res with
  | some data => .own data
  | none => if protoProps.contains res then .inherited else .absent

/-- The HTTP-visible outcome of a route: a payload, one of the two explicit
404 errors, or an escaped TypeError (which Express answers with a 500). -/
inductive RouteOutcome (α : Type) where
  | ok (a : α)
  | apiError (e : ApiError)
  | thrown

/-- Lifting a handler result into a route outcome. -/
def liftExcept : Except ApiError α → RouteOutcome α
  | .ok a => .ok a
  | .error e => .apiError e

/-- `GET /api/:resource` including the guard's behaviour on inherited
properties: `!data` lets a truthy inherited value through, and `data.filter`
— absent on a function or on `Object.prototype` — then throws. -/
def listRoute (db : Store) (res : String) (qy : ListQuery) :
    RouteOutcome (List Rec × Nat) :=
  match jsLookup db res with
  | .inherited => .thrown
  | _ => liftExcept (listHandler db res qy)

/-- `GET /api/:resource/:id` with the inherited-property case (`data.find`
throws on a non-array). -/
def getOneRoute (db : Store) (res id : String) : RouteOutcome Rec :=
  match jsLookup db res with
  | .inherited => .thrown
  | _ => liftExcept (getOneHandler db res id)

/-- `POST /api/:resource` with the inherited-property case (`data.push`
throws before anything is stored). -/
def postRoute (db : Store) (res : String) (body : Rec) (gen : String) :
    Store × RouteOutcome (Rec × Nat) :=
  match jsLookup db res with
  | .inherited => (db, .thrown)
  | _ => ((postHandler db res body gen).1, liftExcept (postHandler db res body gen).2)

/-- `PATCH /api/:resource/:id` with the inherited-property case
(`data.findIndex` throws before anything is stored). -/
def patchRoute (db : Store) (res id : String) (body : Rec) :
    Store × RouteOutcome Rec :=
  match jsLookup db res with
  | .inherited => (db, .thrown)
  | _ => ((patchHandler db res id body).1, liftExcept (patchHandler db res id body).2)

/-- `PUT /api/:resource/:id` with the inherited-property case. -/
def putRoute (db : Store) (res id : String) (body : Rec) :
    Store × RouteOutcome Rec :=
  match jsLookup db res with
  | .inherited => (db, .thrown)
  | _ => ((putHandler db res id body).1, liftExcept (putHandler db res id body).2)

/-- `DELETE /api/:resource/:id` with the inherited-property case. -/
def deleteRoute (db : Store) (res id : String) :
    Store × RouteOutcome Rec :=
  match jsLookup db res with
  | .inherited => (db, .thrown)
  | _ => ((deleteHandler db res id).1, liftExcept (deleteHandler db res id).2)

theorem contains_eq_true_of_mem {l : List String} {a : String} (h : a ∈ l) :
    l.contains a = true := by
  cases hc : l.contains a
  · exact absurd h (by simpa using hc)
  · rfl

theorem jsLookup_absent (db : Store) (res : String)
    (h : storeLookup db res = none) (hnp : res ∉ protoProps) :
    jsLookup db res = .absent := by
  have hc := contains_eq_false_of_not_mem hnp
  unfold jsLookup
  rw [h, hc]
  rfl

theorem jsLookup_inherited (db : Store) (res : String)
    (h : storeLookup db res = none) (hp : res ∈ protoProps) :
    jsLookup db res = .inherited := by
  unfold jsLookup
  rw [h, contains_eq_true_of_mem hp]
  rfl

theorem jsLookup_own (db : Store) (res : String) (data : List Rec)
    (h : storeLookup db res = some data) : jsLookup db res = .own data := by
  unfold jsLookup
  rw [h]

/-- C7 is false as stated: the resource name "constructor" is not present in
the (empty) store, yet listing it does not answer the resource-not-found
signal — `db["constructor"]` finds the inherited, truthy
`Object.prototype.constructor`, the `!data` guard passes, and `data.filter`
throws a TypeError, which Express answers with a 500. -/
theorem claim_C7_counterexample :
    storeLookup ([] : Store) "constructor" = none ∧
    listRoute ([] : Store) "constructor" noQuery = RouteOutcome.thrown ∧
    listRoute ([] : Store) "constructor" noQuery ≠
      RouteOutcome.apiError ApiError.resourceNotFound := by
  refine ⟨rfl, rfl, ?_⟩
  intro hcontra
  exact RouteOutcome.noConfusion
    ((show (RouteOutcome.thrown : RouteOutcome (List Rec × Nat)) =
        listRoute ([] : Store) "constructor" noQuery from rfl).trans hcontra)

/-- C7 (amended): every operation on a resource name that is absent from the
store and is not a property name inherited from `Object.prototype` answers
the distinguishable resource-not-found signal and leaves the store unchanged
— no write implicitly creates a collection; for an absent name that is an
inherited prototype property, every operation throws a TypeError instead of
answering the not-found signal, still leaving the store unchanged; while
collections the loader normalized to empty arrays do accept writes, and
normalization turns every non-array collection value into an array. -/
theorem claim_C7 :
    (∀ (db : Store) (res : String), storeLookup db res = none →
      res ∉ protoProps →
      (∀ qy, listRoute db res qy = RouteOutcome.apiError ApiError.resourceNotFound) ∧
      (∀ id, getOneRoute db res id = RouteOutcome.apiError ApiError.resourceNotFound) ∧
      (∀ body gen,
        postRoute db res body gen = (db, RouteOutcome.apiError ApiError.resourceNotFound)) ∧
      (∀ id body,
        patchRoute db res id body = (db, RouteOutcome.apiError ApiError.resourceNotFound)) ∧
      (∀ id body,
        putRoute db res id body = (db, RouteOutcome.apiError ApiError.resourceNotFound)) ∧
      (∀ id,
        deleteRoute db res id = (db, RouteOutcome.apiError ApiError.resourceNotFound))) ∧
    (∀ (db : Store) (res : String), storeLookup db res = none →
      res ∈ protoProps →
      (∀ qy, listRoute db res qy = RouteOutcome.thrown) ∧
      (∀ id, getOneRoute db res id = RouteOutcome.thrown) ∧
      (∀ body gen, postRoute db res body gen = (db, RouteOutcome.thrown)) ∧
      (∀ id body, patchRoute db res id body = (db, RouteOutcome.thrown)) ∧
      (∀ id body, putRoute db res id body = (db, RouteOutcome.thrown)) ∧
      (∀ id, deleteRoute db res id = (db, RouteOutcome.thrown))) ∧
    (∀ (db : Store) (res : String) (body : Rec) (gen : String),
      storeLookup db res = some [] →
      (postRoute db res body gen).2 = RouteOutcome.ok (createdRec body gen, 201)) ∧
    (∀ (d : List (String × JSVal)) (kv : String × JSVal), kv ∈ ensureArrays d →
      ∃ l, kv.2 = JSVal.arr l) := by
  refine ⟨?_, ?_, ?_, ?_⟩
  · intro db res h hnp
    have ha := jsLookup_absent db res h hnp
    exact ⟨fun qy => by simp only [listRoute, ha, listHandler, h, liftExcept],
      fun id => by simp only [getOneRoute, ha, getOneHandler, h, liftExcept],
      fun body gen => by simp only [postRoute, ha, postHandler, h, liftExcept],
      fun id body => by simp only [patchRoute, ha, patchHandler, h, liftExcept],
      fun id body => by simp only [putRoute, ha, putHandler, h, liftExcept],
      fun id => by simp only [deleteRoute, ha, deleteHandler, h, liftExcept]⟩
  · intro db res h hp
    have hi := jsLookup_inherited db res h hp
    exact ⟨fun qy => by simp only [listRoute, hi],
      fun id => by simp only [getOneRoute, hi],
      fun body gen => by simp only [postRoute, hi],
      fun id body => by simp only [patchRoute, hi],
      fun id body => by simp only [putRoute, hi],
      fun id => by simp only [deleteRoute, hi]⟩
  · intro db res body gen h
    have ho := jsLookup_own db res [] h
    simp only [postRoute, ho, postHandler, h, liftExcept]
  · intro d kv hkv
    unfold ensureArrays at hkv
    rw [List.mem_map] at hkv
    obtain ⟨p, _, rfl⟩ := hkv
    cases p.2 <;> exact ⟨_, rfl⟩

/-- Witness for the amended C7: the absent non-prototype resource "ghosts"
answers 404, the absent prototype-named resource "toString" throws, and a
write to an empty collection is accepted. -/
theorem claim_C7_witness :
    storeLookup ([] : Store) "ghosts" = none ∧ "ghosts" ∉ protoProps ∧
    (∀ qy, listRoute ([] : Store) "ghosts" qy =
      RouteOutcome.apiError ApiError.resourceNotFound) ∧
    storeLookup ([] : Store) "toString" = none ∧ "toString" ∈ protoProps ∧
    (∀ id, getOneRoute ([] : Store) "toString" id = RouteOutcome.thrown) ∧
    storeLookup [("books", ([] : List Rec))] "books" = some [] ∧
    (postRoute [("books", [])] "books" [("t", JSVal.str "x")] "u").2 =
      RouteOutcome.ok (createdRec [("t", JSVal.str "x")] "u", 201) :=
  ⟨rfl, by decide, (claim_C7.1 [] "ghosts" rfl (by decide)).1,
    rfl, by decide, (claim_C7.2.1 [] "toString" rfl (by decide)).2.1,
    rfl, claim_C7.2.2.1 _ _ _ _ rfl⟩

end MiniApi
